import Mathlib

/-! Cyclone core: Vector3 and Particle

A shallow embedding of `include/cyclone/core.h`, `include/cyclone/particle.h`
and `src/particle.cpp`.

* The scalar type `real` comes from `precision.h`, which is not among the
  sources.  It is the type parameter `α`, an ordered field: the code adds,
  multiplies, divides, negates and compares scalars.  Exact real arithmetic is
  the instance `α := ℝ`; the definitions run over `α := ℚ`.
* `real_sqrt` and `real_pow` are macros of `precision.h` as well; every
  function that uses one takes it as an argument.
* `precision.h` configures `real` as a single- or double-precision number.
  `Single` is the single-precision configuration, with products and
  differences rounded to 24 bits; `opMulScalar` and `vectorProduct` ask only
  for the operators they use, so they run on it as they are.
* `Particle::clearAccumulator` is declared in `particle.h` and has no body in
  the sources; `integrate` takes it as an argument.
* A member function that mutates `*this` is a function from the old value to
  the new one.  The private member `pad` is never read or written and is left
  out.
-/

namespace cyclone

/-- Holds a vector in 3 dimensions (`class Vector3`, members `x`, `y`, `z`). -/
structure Vector3 (α : Type) where
  x : α
  y : α
  z : α
  deriving DecidableEq, Repr

namespace Vector3

variable {α : Type} [LinearOrderedField α]

/-- The default constructor `Vector3()`: the zero vector. -/
def zero {β : Type} [Zero β] : Vector3 β := ⟨0, 0, 0⟩

/-- Source `Vector3::invert`: the three assignments `x = -x; y = -y; x = -z;`
in order.  The third one writes `x` again and `z` is never written. -/
def invert (v : Vector3 α) : Vector3 α :=
  let v1 : Vector3 α := { v with x := -v.x }
  let v2 : Vector3 α := { v1 with y := -v1.y }
  let v3 : Vector3 α := { v2 with x := -v2.z }
  v3

/-- Source `Vector3::magnitude`: `real_sqrt(x*x+y*y+z*z)`. -/
def magnitude (real_sqrt : α → α) (v : Vector3 α) : α :=
  real_sqrt (v.x * v.x + v.y * v.y + v.z * v.z)

/-- Source `Vector3::squareMagnitude`: `x*x+y*y+z*z`. -/
def squareMagnitude (v : Vector3 α) : α :=
  v.x * v.x + v.y * v.y + v.z * v.z

/-- Source `Vector3::operator*=(real)`: multiplies this vector by the scalar. -/
def opMulAssign (v : Vector3 α) (value : α) : Vector3 α :=
  ⟨v.x * value, v.y * value, v.z * value⟩

/-- Source `Vector3::normalize`: `l = magnitude(); if (l > 0) (*this) *= ((real)l)/l;`.
The factor is `l / l`, as written in the source. -/
def normalize (real_sqrt : α → α) (v : Vector3 α) : Vector3 α :=
  let l := magnitude real_sqrt v
  if l > 0 then opMulAssign v (l / l) else v

/-- Source `Vector3::operator*(real)`: a copy of this vector scaled by the value. -/
def opMulScalar {β : Type} [Mul β] (v : Vector3 β) (value : β) : Vector3 β :=
  ⟨v.x * value, v.y * value, v.z * value⟩

/-- Source `Vector3::operator+=`. -/
def opAddAssign (u v : Vector3 α) : Vector3 α :=
  ⟨u.x + v.x, u.y + v.y, u.z + v.z⟩

/-- Source `Vector3::operator+`. -/
def opAdd (u v : Vector3 α) : Vector3 α :=
  ⟨u.x + v.x, u.y + v.y, u.z + v.z⟩

/-- Source `Vector3::operator-=`. -/
def opSubAssign (u v : Vector3 α) : Vector3 α :=
  ⟨u.x - v.x, u.y - v.y, u.z - v.z⟩

/-- Source `Vector3::operator-`. -/
def opSub (u v : Vector3 α) : Vector3 α :=
  ⟨u.x - v.x, u.y - v.y, u.z - v.z⟩

/-- Source `Vector3::addScaledVector`: `x += vector.x * scale;` and likewise
for `y` and `z`. -/
def addScaledVector (u vector : Vector3 α) (scale : α) : Vector3 α :=
  ⟨u.x + vector.x * scale, u.y + vector.y * scale, u.z + vector.z * scale⟩

/-- Source `Vector3::componentProduct`. -/
def componentProduct (u vector : Vector3 α) : Vector3 α :=
  ⟨u.x * vector.x, u.y * vector.y, u.z * vector.z⟩

/-- Source `Vector3::componentProductUpdate`. -/
def componentProductUpdate (u vector : Vector3 α) : Vector3 α :=
  ⟨u.x * vector.x, u.y * vector.y, u.z * vector.z⟩

/-- Source `Vector3::scalarProduct`: `x*vector.x + y*vector.y + z*vector.z`. -/
def scalarProduct (u vector : Vector3 α) : α :=
  u.x * vector.x + u.y * vector.y + u.z * vector.z

/-- Source `Vector3::operator*(const Vector3&)`: the scalar product, written
out a second time in the source. -/
def opMulVector (u vector : Vector3 α) : α :=
  u.x * vector.x + u.y * vector.y + u.z * vector.z

/-- Source `Vector3::vectorProduct`. -/
def vectorProduct {β : Type} [Mul β] [Sub β] (u vector : Vector3 β) : Vector3 β :=
  ⟨u.y * vector.z - u.z * vector.y,
   u.z * vector.x - u.x * vector.z,
   u.x * vector.y - u.y * vector.x⟩

/-- Source `Vector3::operator%=`: `*this = vectorProduct(vector)`. -/
def opModAssign (u vector : Vector3 α) : Vector3 α :=
  vectorProduct u vector

/-- Source `Vector3::operator%`: the vector product, written out a second time
in the source. -/
def opMod (u vector : Vector3 α) : Vector3 α :=
  ⟨u.y * vector.z - u.z * vector.y,
   u.z * vector.x - u.x * vector.z,
   u.x * vector.y - u.y * vector.x⟩

/-- Source `Vector3::makeOrthonormalBasis(a, b, c)`, for three distinct
objects `*a`, `*b`, `*c`; the result is their final values `(a, b, c)`.
The incoming value of `*c` is overwritten before it is read. -/
def makeOrthonormalBasis (real_sqrt : α → α) (a b _c : Vector3 α) :
    Vector3 α × Vector3 α × Vector3 α :=
  let a1 := normalize real_sqrt a
  let c1 := opMod a1 b
  if squareMagnitude c1 = 0 then (a1, b, c1)
  else
    let c2 := normalize real_sqrt c1
    let b1 := opMod c2 a1
    (a1, b1, c2)

end Vector3

/-- The state of a particle (`class Particle`): its five data members. -/
structure Particle (α : Type) where
  position : Vector3 α
  velocity : Vector3 α
  acceleration : Vector3 α
  damping : α
  inverseMass : α
  deriving DecidableEq, Repr

/-- How a call ends, with the state of the object at that point: a normal
return, or the `assert` of `<assert.h>` failing and aborting the program. -/
inductive Outcome (σ : Type) where
  | returned (state : σ)
  | assertFailed (state : σ)
  deriving DecidableEq, Repr

namespace Outcome

/-- The object state at the end of the call. -/
def state {σ : Type} : Outcome σ → σ
  | returned s => s
  | assertFailed s => s

end Outcome

namespace Particle

variable {α : Type} [LinearOrderedField α]

/-- Source `Particle::integrate(duration)`, statement by statement, with
assertions enabled: the infinite-mass test comes first, then
`assert(duration > 0.0)`, then the two `addScaledVector` updates, the drag
`velocity *= real_pow(damping, duration)` and the call of `clearAccumulator`. -/
def integrate (real_pow : α → α → α) (clearAccumulator : Particle α → Particle α)
    (p : Particle α) (duration : α) : Outcome (Particle α) :=
  if p.inverseMass ≤ 0 then Outcome.returned p
  else if ¬ (duration > 0) then Outcome.assertFailed p
  else
    let p1 : Particle α :=
      { p with position := Vector3.addScaledVector p.position p.velocity duration }
    let resultingAcc := p1.acceleration
    let p2 : Particle α :=
      { p1 with velocity := Vector3.addScaledVector p1.velocity resultingAcc duration }
    let p3 : Particle α :=
      { p2 with velocity := Vector3.opMulAssign p2.velocity (real_pow p2.damping duration) }
    Outcome.returned (clearAccumulator p3)

end Particle

/-! ## The same code with its ways of ending made explicit -/

namespace Vector3

variable {α : Type} [LinearOrderedField α]

/-- The division of two scalars in exact arithmetic: there is no quotient for
the divisor `0`. -/
def divChecked (a b : α) : Option α :=
  if b = 0 then none else some (a / b)

/-- Source `Vector3::normalize` with its division `((real)l)/l` checked:
`none` stands for the division being reached with the divisor `0`. -/
def normalizeChecked (real_sqrt : α → α) (v : Vector3 α) : Option (Vector3 α) :=
  let l := magnitude real_sqrt v
  if l > 0 then (divChecked l l).map (opMulAssign v) else some v

/-- Source `Vector3::makeOrthonormalBasis` with the way the call ends: the
function is `void`, its parallel case is the statement `return;`, and it has
no `assert`, so either path is a normal return with the three objects as they
then are. -/
def makeOrthonormalBasisOutcome (real_sqrt : α → α) (a b _c : Vector3 α) :
    Outcome (Vector3 α × Vector3 α × Vector3 α) :=
  let a1 := normalize real_sqrt a
  let c1 := opMod a1 b
  if squareMagnitude c1 = 0 then Outcome.returned (a1, b, c1)
  else
    let c2 := normalize real_sqrt c1
    let b1 := opMod c2 a1
    Outcome.returned (a1, b1, c2)

end Vector3

namespace Particle

variable {α : Type} [LinearOrderedField α]

end Particle

/-! ## The single-precision configuration of `precision.h` -/

/-- Modelled from the spec: the scalar type `real` of `precision.h`, which is
not among the sources, in its single-precision configuration.  A finite
number `m * 2 ^ e` of at most 24 significant bits, written with `m` odd, or
with `m = 0` and `e = 0`.  The exponent range is not modelled: no overflow and
no subnormal numbers. -/
structure Single where
  m : ℤ
  e : ℤ
  deriving DecidableEq, Repr

namespace Single

/-- The number of binary digits of `n`; the first argument bounds the number
of steps and `n` itself is enough. -/
def bitLength : Nat → Nat → Nat
  | 0, _ => 0
  | fuel + 1, n => if n = 0 then 0 else bitLength fuel (n / 2) + 1

/-- The integer nearest to `n / 2 ^ shift`, a tie going to the even one. -/
def roundNearestEven (n shift : Nat) : Nat :=
  let q := n / 2 ^ shift
  let r := n % 2 ^ shift
  if 2 * r < 2 ^ shift then q
  else if 2 ^ shift < 2 * r then q + 1
  else if q % 2 = 0 then q
  else q + 1

/-- Halves an even `n` and raises the exponent, until `n` is odd. -/
def stripZeros : Nat → Nat → ℤ → Nat × ℤ
  | 0, n, e => (n, e)
  | fuel + 1, n, e =>
    if n ≠ 0 ∧ n % 2 = 0 then stripZeros fuel (n / 2) (e + 1) else (n, e)

/-- The single-precision number nearest to the exact value `m * 2 ^ e`: the
value is kept when it has at most 24 significant bits and is rounded to 24
bits, ties to even, when it has more. -/
def ofDyadic (m e : ℤ) : Single :=
  let n := m.natAbs
  if n = 0 then ⟨0, 0⟩
  else
    let b := bitLength n n
    let shift := b - 24
    let r := stripZeros b (roundNearestEven n shift) (e + shift)
    ⟨(if m < 0 then -1 else 1) * r.1, r.2⟩

/-- The single-precision product: the exact product, rounded. -/
def mul (a b : Single) : Single :=
  ofDyadic (a.m * b.m) (a.e + b.e)

/-- The single-precision difference: the exact difference, rounded. -/
def sub (a b : Single) : Single :=
  let e := min a.e b.e
  ofDyadic (a.m * 2 ^ (a.e - e).toNat - b.m * 2 ^ (b.e - e).toNat) e

end Single

/-- The operator `*` on single-precision numbers. -/
instance Single.instMul : Mul Single := ⟨Single.mul⟩

/-- The operator `-` on single-precision numbers. -/
instance Single.instSub : Sub Single := ⟨Single.sub⟩

/-- The single-precision number `0`. -/
instance Single.instZero : Zero Single := ⟨⟨0, 0⟩⟩

/-- Modelled from the spec: `real_pow` of `precision.h`, which is not among
the sources, in the single-precision configuration, at the three pairs of
arguments the theorems below use: the exact power rounded to the nearest
single-precision number.  `(1/2)^(1/2) = 0.7071067811...` rounds to
`11863283 / 2^24`, `(1/2)^1` is `1/2`, and `(1/2)^(2^-60)`, which is below `1`
by less than `2^-60`, rounds to `1`.  At other arguments the value is not
used. -/
def real_pow_single (base exponent : ℚ) : ℚ :=
  if base = 1 / 2 ∧ exponent = 1 / 2 then 11863283 / 16777216
  else if base = 1 / 2 ∧ exponent = 1 then 1 / 2
  else if base = 1 / 2 ∧ exponent = 1 / 2 ^ 60 then 1
  else 1

/-! ## Shared lemmas -/

namespace Vector3

variable {α : Type} [LinearOrderedField α]

/-- What the three assignments of `invert` leave: `x` holds `-z`, `y` is
negated and `z` is what it was. -/
theorem invert_eq (v : Vector3 α) : invert v = ⟨-v.z, -v.y, v.z⟩ := rfl

/-- The factor `l / l` is `1` whenever it is used, so `normalize` returns its
argument, whatever `real_sqrt` computes. -/
theorem normalize_eq_self (real_sqrt : α → α) (v : Vector3 α) :
    normalize real_sqrt v = v := by
  unfold normalize
  by_cases h : magnitude real_sqrt v > 0
  · simp only [h, if_true, opMulAssign]
    have hne : magnitude real_sqrt v ≠ 0 := ne_of_gt h
    rw [div_self hne]
    simp
  · simp only [h, if_false]

/-- Two vectors with the same three components are the same vector. -/
theorem eq_of_components {β : Type} {u v : Vector3 β} (hx : u.x = v.x) (hy : u.y = v.y)
    (hz : u.z = v.z) : u = v := by
  cases u
  cases v
  simp only at hx hy hz
  rw [hx, hy, hz]

/-- The exact square root of `25` is `5`. -/
theorem sqrt_twentyfive : Real.sqrt 25 = 5 := by
  have h : (25 : ℝ) = 5 ^ 2 := by norm_num
  rw [h, Real.sqrt_sq (by norm_num)]

/-- The exact square root of `4` is `2`. -/
theorem sqrt_four : Real.sqrt 4 = 2 := by
  have h : (4 : ℝ) = 2 ^ 2 := by norm_num
  rw [h, Real.sqrt_sq (by norm_num)]

/-- The two written-out vector products of the source are the same function. -/
theorem opMod_eq_vectorProduct (u v : Vector3 α) : opMod u v = vectorProduct u v := rfl

/-- A sum of three squares is not negative. -/
theorem squareMagnitude_nonneg (v : Vector3 α) : 0 ≤ squareMagnitude v := by
  unfold squareMagnitude
  have hx := mul_self_nonneg v.x
  have hy := mul_self_nonneg v.y
  have hz := mul_self_nonneg v.z
  linarith

/-- The test `squareMagnitude() == 0.0` holds for the zero vector and for no
other. -/
theorem squareMagnitude_eq_zero_iff (v : Vector3 α) :
    squareMagnitude v = 0 ↔ v = zero := by
  constructor
  · intro h
    unfold squareMagnitude at h
    have hx := mul_self_nonneg v.x
    have hy := mul_self_nonneg v.y
    have hz := mul_self_nonneg v.z
    have hx0 : v.x * v.x = 0 := by linarith
    have hy0 : v.y * v.y = 0 := by linarith
    have hz0 : v.z * v.z = 0 := by linarith
    apply eq_of_components
    · exact mul_self_eq_zero.mp hx0
    · exact mul_self_eq_zero.mp hy0
    · exact mul_self_eq_zero.mp hz0
  · intro h
    rw [h]
    simp [squareMagnitude, zero]

/-- The checked `normalize` never reaches a division by zero: it has the result
of `normalize`, whatever `real_sqrt` computes. -/
theorem normalizeChecked_eq_some (real_sqrt : α → α) (v : Vector3 α) :
    normalizeChecked real_sqrt v = some (normalize real_sqrt v) := by
  unfold normalizeChecked normalize
  by_cases h : magnitude real_sqrt v > 0
  · have hne : magnitude real_sqrt v ≠ 0 := ne_of_gt h
    simp only [h, if_true, divChecked, hne, if_false, Option.map_some']
  · simp only [h, if_false]

/-- The call of `makeOrthonormalBasis` always ends in a normal return, with
the objects as `makeOrthonormalBasis` leaves them. -/
theorem makeOrthonormalBasisOutcome_eq (real_sqrt : α → α) (a b c : Vector3 α) :
    makeOrthonormalBasisOutcome real_sqrt a b c =
      Outcome.returned (makeOrthonormalBasis real_sqrt a b c) := by
  unfold makeOrthonormalBasisOutcome makeOrthonormalBasis
  by_cases h : squareMagnitude (opMod (normalize real_sqrt a) b) = 0
  · simp only [h, if_true]
  · simp only [h, if_false]

/-- What `makeOrthonormalBasis` leaves when `a x b` is the zero vector. -/
theorem makeOrthonormalBasis_of_parallel (real_sqrt : α → α) (a b c : Vector3 α)
    (h : vectorProduct a b = zero) :
    makeOrthonormalBasis real_sqrt a b c = (a, b, zero) := by
  have h0 : squareMagnitude (zero : Vector3 α) = 0 :=
    (squareMagnitude_eq_zero_iff zero).mpr rfl
  simp only [makeOrthonormalBasis, normalize_eq_self, opMod_eq_vectorProduct, h, h0, if_true]

/-- What `makeOrthonormalBasis` leaves when `a x b` is not the zero vector. -/
theorem makeOrthonormalBasis_of_not_parallel (real_sqrt : α → α) (a b c : Vector3 α)
    (h : vectorProduct a b ≠ zero) :
    makeOrthonormalBasis real_sqrt a b c =
      (a, vectorProduct (vectorProduct a b) a, vectorProduct a b) := by
  have h0 : ¬ squareMagnitude (vectorProduct a b) = 0 :=
    fun h1 => h ((squareMagnitude_eq_zero_iff _).mp h1)
  simp only [makeOrthonormalBasis, normalize_eq_self, opMod_eq_vectorProduct, h0, if_false]

end Vector3

namespace Particle

variable {α : Type} [LinearOrderedField α]

/-- The state `integrate` hands to `clearAccumulator` on its main path: the
position and the velocity are rewritten, the other members are as given. -/
theorem integrate_main_path (real_pow : α → α → α)
    (clearAccumulator : Particle α → Particle α) (p : Particle α) (duration : α)
    (hm : p.inverseMass > 0) (hd : duration > 0) :
    integrate real_pow clearAccumulator p duration =
      Outcome.returned (clearAccumulator
        { p with
          position := Vector3.addScaledVector p.position p.velocity duration
          velocity := Vector3.opMulAssign
            (Vector3.addScaledVector p.velocity p.acceleration duration)
            (real_pow p.damping duration) }) := by
  have hm' : ¬ p.inverseMass ≤ 0 := not_le.mpr hm
  simp only [integrate, hm', hd, if_false, not_true_eq_false]

/-- Adding the zero vector scaled by anything changes nothing. -/
theorem addScaledVector_zero (v : Vector3 α) (scale : α) :
    Vector3.addScaledVector v Vector3.zero scale = v := by
  apply Vector3.eq_of_components <;> simp [Vector3.addScaledVector, Vector3.zero]

/-- One step of a particle of finite mass with zero acceleration, for a
`clearAccumulator` that keeps velocity, damping and inverseMass and keeps a
zero acceleration zero: the velocity is scaled by `real_pow(damping, duration)`
and the other three are as before. -/
theorem integrate_zero_acceleration (real_pow : α → α → α)
    (clearAccumulator : Particle α → Particle α)
    (hclear : ∀ q, (clearAccumulator q).velocity = q.velocity ∧
      (clearAccumulator q).damping = q.damping ∧
      (clearAccumulator q).inverseMass = q.inverseMass ∧
      (q.acceleration = Vector3.zero → (clearAccumulator q).acceleration = Vector3.zero))
    (p : Particle α) (duration : α)
    (hm : p.inverseMass > 0) (hacc : p.acceleration = Vector3.zero) (hd : duration > 0) :
    ∃ p', integrate real_pow clearAccumulator p duration = Outcome.returned p' ∧
      p'.velocity = Vector3.opMulAssign p.velocity (real_pow p.damping duration) ∧
      p'.damping = p.damping ∧ p'.inverseMass = p.inverseMass ∧
      p'.acceleration = Vector3.zero := by
  refine ⟨_, integrate_main_path real_pow clearAccumulator p duration hm hd, ?_, ?_, ?_, ?_⟩
  · rw [(hclear _).1]
    simp only [hacc, addScaledVector_zero]
  · rw [(hclear _).2.1]
  · rw [(hclear _).2.2.1]
  · exact (hclear _).2.2.2 hacc

/-- The three values of the single-precision `real_pow` that are used. -/
theorem real_pow_single_values :
    real_pow_single (1 / 2) (1 / 2) = 11863283 / 16777216 ∧
    real_pow_single (1 / 2) 1 = 1 / 2 ∧
    real_pow_single (1 / 2) (1 / 2 ^ 60) = 1 := by
  refine ⟨?_, ?_, ?_⟩ <;> norm_num [real_pow_single]

/-- Each of the three values is the single-precision number nearest to the
exact power: `(1/2)^1` is met exactly, `(1/2)^(1/2)` within half the spacing
`2^-24` of the numbers between `1/2` and `1`, and `(1/2)^(2^-60)` lies within
`2^-60` of `1`, far inside half the spacing `2^-24` below `1`. -/
theorem real_pow_single_nearest :
    ((real_pow_single (1 / 2) 1 : ℚ) : ℝ) = (1 / 2 : ℝ) ^ (1 : ℝ) ∧
    |(1 / 2 : ℝ) ^ (1 / 2 : ℝ) - ((real_pow_single (1 / 2) (1 / 2) : ℚ) : ℝ)| < 1 / 2 ^ 25 ∧
    |(1 / 2 : ℝ) ^ (1 / 2 ^ 60 : ℝ) - ((real_pow_single (1 / 2) (1 / 2 ^ 60) : ℚ) : ℝ)|
      ≤ 1 / 2 ^ 60 := by
  obtain ⟨h1, h2, h3⟩ := real_pow_single_values
  refine ⟨?_, ?_, ?_⟩
  · rw [h2, Real.rpow_one]
    push_cast
    rfl
  · rw [h1, ← Real.sqrt_eq_rpow]
    have h0 : (0 : ℝ) ≤ Real.sqrt (1 / 2) := Real.sqrt_nonneg _
    have hsq : Real.sqrt (1 / 2) * Real.sqrt (1 / 2) = 1 / 2 :=
      Real.mul_self_sqrt (by norm_num)
    push_cast
    rw [abs_sub_lt_iff]
    constructor <;> nlinarith
  · rw [h3]
    have hlt : (1 / 2 : ℝ) ^ (1 / 2 ^ 60 : ℝ) < 1 :=
      Real.rpow_lt_one (by norm_num) (by norm_num) (by norm_num)
    have hlog : -1 ≤ Real.log (1 / 2) := by
      have h2 : Real.log 2 ≤ 2 - 1 := Real.log_le_sub_one_of_pos (by norm_num)
      rw [one_div, Real.log_inv]
      linarith
    have hexp : Real.log (1 / 2) * (1 / 2 ^ 60) + 1 ≤ (1 / 2 : ℝ) ^ (1 / 2 ^ 60 : ℝ) := by
      rw [Real.rpow_def_of_pos (by norm_num)]
      exact Real.add_one_le_exp _
    push_cast
    rw [abs_le]
    constructor <;> nlinarith

end Particle

/-! ## Vector3: invert and normalize -/

namespace Vector3

/-- C1 (the code departs from it): `invert` applied to `(1, -2, 3)` leaves
`(-3, 2, 3)`, where the claim has `(-1, 2, -3)`: the third assignment writes
`x` with `-z`, so `x` is not the negation of the old `x` and `z` is not
negated. -/
theorem invert_example_not_negated :
    invert (⟨1, -2, 3⟩ : Vector3 ℝ) = ⟨-3, 2, 3⟩ ∧
    invert (⟨1, -2, 3⟩ : Vector3 ℝ) ≠ ⟨-1, 2, -3⟩ := by
  constructor
  · rw [invert_eq]
    norm_num
  · rw [invert_eq]
    intro h
    have hx := congrArg Vector3.x h
    norm_num at hx

/-- C2 (the code departs from it): over exact reals `(3, 4, 0)` has magnitude
`5 > 0`, and `normalize` leaves it `(3, 4, 0)`: its magnitude is still `5`,
not `1`, and it is not the original scaled by `1 / 5`. -/
theorem normalize_example_not_unit :
    magnitude Real.sqrt (⟨3, 4, 0⟩ : Vector3 ℝ) > 0 ∧
    normalize Real.sqrt (⟨3, 4, 0⟩ : Vector3 ℝ) = ⟨3, 4, 0⟩ ∧
    magnitude Real.sqrt (normalize Real.sqrt (⟨3, 4, 0⟩ : Vector3 ℝ)) = 5 ∧
    magnitude Real.sqrt (normalize Real.sqrt (⟨3, 4, 0⟩ : Vector3 ℝ)) ≠ 1 ∧
    normalize Real.sqrt (⟨3, 4, 0⟩ : Vector3 ℝ) ≠
      opMulScalar ⟨3, 4, 0⟩ (1 / magnitude Real.sqrt (⟨3, 4, 0⟩ : Vector3 ℝ)) := by
  have hm : magnitude Real.sqrt (⟨3, 4, 0⟩ : Vector3 ℝ) = 5 := by
    have h : (3 * 3 + 4 * 4 + 0 * 0 : ℝ) = 25 := by norm_num
    simp only [magnitude, h, sqrt_twentyfive]
  rw [normalize_eq_self, hm]
  refine ⟨by norm_num, rfl, rfl, by norm_num, ?_⟩
  intro h
  have hx := congrArg Vector3.x h
  norm_num [opMulScalar] at hx

end Vector3

/-! ## Particle: integrate -/

namespace Particle

variable {α : Type} [LinearOrderedField α]

/-- C3: for a particle with `inverseMass > 0` and a `duration > 0`, `integrate`
returns normally with `position = position + velocity * duration`, the
velocity being the one before the call, and
`velocity = (velocity + acceleration * duration) * real_pow(damping, duration)`.
`clearAccumulator`, whose body is not in the sources, is any function that
leaves position and velocity as they are. -/
theorem integrate_finite_mass (real_pow : α → α → α)
    (clearAccumulator : Particle α → Particle α)
    (hclear : ∀ q, (clearAccumulator q).position = q.position ∧
      (clearAccumulator q).velocity = q.velocity)
    (p : Particle α) (duration : α)
    (hm : p.inverseMass > 0) (hd : duration > 0) :
    ∃ p', integrate real_pow clearAccumulator p duration = Outcome.returned p' ∧
      p'.position = Vector3.opAdd p.position (Vector3.opMulScalar p.velocity duration) ∧
      p'.velocity =
        Vector3.opMulScalar
          (Vector3.opAdd p.velocity (Vector3.opMulScalar p.acceleration duration))
          (real_pow p.damping duration) := by
  have hm' : ¬ p.inverseMass ≤ 0 := not_le.mpr hm
  have h : integrate real_pow clearAccumulator p duration =
      Outcome.returned (clearAccumulator
        { p with
          position := Vector3.addScaledVector p.position p.velocity duration
          velocity := Vector3.opMulAssign
            (Vector3.addScaledVector p.velocity p.acceleration duration)
            (real_pow p.damping duration) }) := by
    simp only [integrate, hm', hd, if_false, not_true_eq_false]
  refine ⟨_, h, ?_, ?_⟩
  · rw [(hclear _).1]
    rfl
  · rw [(hclear _).2]
    rfl

/-- C3 at the input of the specification: position `(0,0,0)`, velocity
`(0,0,0)`, acceleration `(0,-10,0)`, damping `1`, inverseMass `1` and
duration `1` over exact reals give velocity `(0,-10,0)` and position
`(0,0,0)`. -/
theorem integrate_finite_mass_witness :
    (1 : ℝ) > 0 ∧ (1 : ℝ) > 0 ∧
    ∃ p', integrate (fun a b : ℝ => a ^ b) id
        ⟨⟨0, 0, 0⟩, ⟨0, 0, 0⟩, ⟨0, -10, 0⟩, 1, 1⟩ 1 = Outcome.returned p' ∧
      p'.position = ⟨0, 0, 0⟩ ∧ p'.velocity = ⟨0, -10, 0⟩ := by
  obtain ⟨p', h, hpos, hvel⟩ :=
    integrate_finite_mass (fun a b : ℝ => a ^ b) id (fun _ => ⟨rfl, rfl⟩)
      ⟨⟨0, 0, 0⟩, ⟨0, 0, 0⟩, ⟨0, -10, 0⟩, 1, 1⟩ 1 (by norm_num) (by norm_num)
  refine ⟨by norm_num, by norm_num, p', h, ?_, ?_⟩
  · rw [hpos]
    simp [Vector3.opAdd, Vector3.opMulScalar]
  · rw [hvel]
    simp [Vector3.opAdd, Vector3.opMulScalar]

/-- C4: for a particle with `inverseMass <= 0` and a `duration > 0`,
`integrate` returns normally and the state it leaves is the state it was
given: position, velocity, acceleration, damping and inverseMass are
unchanged. -/
theorem integrate_infinite_mass (real_pow : α → α → α)
    (clearAccumulator : Particle α → Particle α)
    (p : Particle α) (duration : α)
    (hm : p.inverseMass ≤ 0) (_hd : duration > 0) :
    integrate real_pow clearAccumulator p duration = Outcome.returned p := by
  simp only [integrate, hm, if_true]

/-- C4 at a particle of inverseMass `0` that has a velocity and an
acceleration, with a `clearAccumulator` that would zero the acceleration. -/
theorem integrate_infinite_mass_witness :
    (0 : ℝ) ≤ 0 ∧ (2 : ℝ) > 0 ∧
    integrate (fun a b : ℝ => a ^ b) (fun q => { q with acceleration := Vector3.zero })
        ⟨⟨1, 2, 3⟩, ⟨4, 5, 6⟩, ⟨0, -10, 0⟩, 1 / 2, 0⟩ 2 =
      Outcome.returned ⟨⟨1, 2, 3⟩, ⟨4, 5, 6⟩, ⟨0, -10, 0⟩, 1 / 2, 0⟩ :=
  ⟨le_refl 0, by norm_num,
    integrate_infinite_mass (fun a b : ℝ => a ^ b)
      (fun q => { q with acceleration := Vector3.zero })
      ⟨⟨1, 2, 3⟩, ⟨4, 5, 6⟩, ⟨0, -10, 0⟩, 1 / 2, 0⟩ 2 (le_refl 0) (by norm_num)⟩

/-- C5 as stated fails: a particle of inverseMass `0` given the duration `-1`
returns normally, no assertion fails. -/
theorem integrate_infinite_mass_negative_duration :
    (-1 : ℝ) ≤ 0 ∧
    integrate (fun a b : ℝ => a ^ b) id
        ⟨⟨1, 2, 3⟩, ⟨4, 5, 6⟩, ⟨0, -10, 0⟩, 1, 0⟩ (-1) =
      Outcome.returned ⟨⟨1, 2, 3⟩, ⟨4, 5, 6⟩, ⟨0, -10, 0⟩, 1, 0⟩ ∧
    ∀ s, integrate (fun a b : ℝ => a ^ b) id
        ⟨⟨1, 2, 3⟩, ⟨4, 5, 6⟩, ⟨0, -10, 0⟩, 1, 0⟩ (-1) ≠ Outcome.assertFailed s := by
  have h : integrate (fun a b : ℝ => a ^ b) id
        ⟨⟨1, 2, 3⟩, ⟨4, 5, 6⟩, ⟨0, -10, 0⟩, 1, 0⟩ (-1) =
      Outcome.returned ⟨⟨1, 2, 3⟩, ⟨4, 5, 6⟩, ⟨0, -10, 0⟩, 1, 0⟩ := by
    simp only [integrate, le_refl, if_true]
  refine ⟨by norm_num, h, ?_⟩
  intro s hs
  rw [h] at hs
  cases hs

/-- C5 amended: for a `duration <= 0`, a particle with `inverseMass > 0` makes
the assertion `duration > 0` fail with its state as it was given, and a
particle with `inverseMass <= 0` returns normally with its state as it was
given. -/
theorem integrate_nonpositive_duration (real_pow : α → α → α)
    (clearAccumulator : Particle α → Particle α)
    (p : Particle α) (duration : α) (hd : duration ≤ 0) :
    (p.inverseMass > 0 →
      integrate real_pow clearAccumulator p duration = Outcome.assertFailed p) ∧
    (p.inverseMass ≤ 0 →
      integrate real_pow clearAccumulator p duration = Outcome.returned p) := by
  have hd' : ¬ duration > 0 := not_lt.mpr hd
  constructor
  · intro hm
    have hm' : ¬ p.inverseMass ≤ 0 := not_le.mpr hm
    simp only [integrate, hm', hd', if_false, not_false_eq_true, if_true]
  · intro hm
    simp only [integrate, hm, if_true]

/-- C5 amended, at a particle of inverseMass `1` and the duration `0`: the
assertion fails and the state is the one given. -/
theorem integrate_nonpositive_duration_witness :
    (0 : ℝ) ≤ 0 ∧
    integrate (fun a b : ℝ => a ^ b) id
        ⟨⟨1, 2, 3⟩, ⟨4, 5, 6⟩, ⟨0, -10, 0⟩, 1, 1⟩ 0 =
      Outcome.assertFailed ⟨⟨1, 2, 3⟩, ⟨4, 5, 6⟩, ⟨0, -10, 0⟩, 1, 1⟩ :=
  ⟨le_refl 0,
    (integrate_nonpositive_duration (fun a b : ℝ => a ^ b) id
      ⟨⟨1, 2, 3⟩, ⟨4, 5, 6⟩, ⟨0, -10, 0⟩, 1, 1⟩ 0 (le_refl 0)).1 (by norm_num)⟩

/-- C12 as stated fails: with the single-precision `real_pow`, a particle of
inverseMass `1`, damping `1/2`, zero acceleration and velocity `(3, 4, 0)`
is left with another velocity by `integrate(1/2)` twice than by the single
`integrate(1/2 + 1/2)`: `real_pow(1/2, 1/2)` is `k = 11863283 / 2^24`, whose
square is not `real_pow(1/2, 1) = 1/2`, so the two calls leave `(3 k k, 4 k k, 0)`
and the single call leaves `(3/2, 2, 0)`. -/
theorem integrate_single_precision_step_size_dependent :
    (1 : ℚ) > 0 ∧ (1 / 2 : ℚ) > 0 ∧
    integrate real_pow_single id
        ⟨⟨0, 0, 0⟩, ⟨3, 4, 0⟩, Vector3.zero, 1 / 2, 1⟩ (1 / 2) =
      Outcome.returned
        ⟨⟨3 / 2, 2, 0⟩, ⟨35589849 / 16777216, 11863283 / 4194304, 0⟩, Vector3.zero, 1 / 2, 1⟩ ∧
    integrate real_pow_single id
        ⟨⟨3 / 2, 2, 0⟩, ⟨35589849 / 16777216, 11863283 / 4194304, 0⟩, Vector3.zero, 1 / 2, 1⟩
        (1 / 2) =
      Outcome.returned
        ⟨⟨85921497 / 33554432, 28640499 / 8388608, 0⟩,
          ⟨422212450614267 / 281474976710656, 140737483538089 / 70368744177664, 0⟩,
          Vector3.zero, 1 / 2, 1⟩ ∧
    integrate real_pow_single id
        ⟨⟨0, 0, 0⟩, ⟨3, 4, 0⟩, Vector3.zero, 1 / 2, 1⟩ (1 / 2 + 1 / 2) =
      Outcome.returned ⟨⟨3, 4, 0⟩, ⟨3 / 2, 2, 0⟩, Vector3.zero, 1 / 2, 1⟩ ∧
    (⟨422212450614267 / 281474976710656, 140737483538089 / 70368744177664, 0⟩ : Vector3 ℚ) ≠
      ⟨3 / 2, 2, 0⟩ := by
  refine ⟨by norm_num, by norm_num, ?_, ?_, ?_, ?_⟩
  · rw [integrate_main_path _ _ _ _ (by norm_num) (by norm_num)]
    norm_num [real_pow_single, Vector3.addScaledVector, Vector3.opMulAssign, Vector3.zero]
  · rw [integrate_main_path _ _ _ _ (by norm_num) (by norm_num)]
    norm_num [real_pow_single, Vector3.addScaledVector, Vector3.opMulAssign, Vector3.zero]
  · rw [integrate_main_path _ _ _ _ (by norm_num) (by norm_num)]
    norm_num [real_pow_single, Vector3.addScaledVector, Vector3.opMulAssign, Vector3.zero]
  · intro h
    have hy := congrArg Vector3.y h
    norm_num at hy

/-- C12 amended: over exact reals, with `real_pow` the exact real power, for a
particle with `inverseMass > 0`, `damping > 0` and zero acceleration and
durations `d1 > 0`, `d2 > 0`, the
call `integrate(d1)` followed by `integrate(d2)` and the single call
`integrate(d1 + d2)` all return and leave the same velocity.
`clearAccumulator` is any function that keeps velocity, damping and
inverseMass and keeps a zero acceleration zero. -/
theorem integrate_damping_step_size_independent
    (clearAccumulator : Particle ℝ → Particle ℝ)
    (hclear : ∀ q, (clearAccumulator q).velocity = q.velocity ∧
      (clearAccumulator q).damping = q.damping ∧
      (clearAccumulator q).inverseMass = q.inverseMass ∧
      (q.acceleration = Vector3.zero → (clearAccumulator q).acceleration = Vector3.zero))
    (p : Particle ℝ) (d1 d2 : ℝ)
    (hm : p.inverseMass > 0) (hdamp : p.damping > 0)
    (hacc : p.acceleration = Vector3.zero) (h1 : d1 > 0) (h2 : d2 > 0) :
    ∃ p1 p2 p12,
      integrate (fun a b : ℝ => a ^ b) clearAccumulator p d1 = Outcome.returned p1 ∧
      integrate (fun a b : ℝ => a ^ b) clearAccumulator p1 d2 = Outcome.returned p2 ∧
      integrate (fun a b : ℝ => a ^ b) clearAccumulator p (d1 + d2) =
        Outcome.returned p12 ∧
      p2.velocity = p12.velocity := by
  obtain ⟨p1, hp1, hv1, hdamp1, hm1, hacc1⟩ :=
    integrate_zero_acceleration (fun a b : ℝ => a ^ b) clearAccumulator hclear
      p d1 hm hacc h1
  have hm1' : p1.inverseMass > 0 := by rw [hm1]; exact hm
  obtain ⟨p2, hp2, hv2, _, _, _⟩ :=
    integrate_zero_acceleration (fun a b : ℝ => a ^ b) clearAccumulator hclear
      p1 d2 hm1' hacc1 h2
  obtain ⟨p12, hp12, hv12, _, _, _⟩ :=
    integrate_zero_acceleration (fun a b : ℝ => a ^ b) clearAccumulator hclear
      p (d1 + d2) hm hacc (add_pos h1 h2)
  refine ⟨p1, p2, p12, hp1, hp2, hp12, ?_⟩
  rw [hv2, hv12, hv1, hdamp1]
  simp only [Vector3.opMulAssign, Real.rpow_add hdamp]
  apply Vector3.eq_of_components <;> simp only [] <;> ring

/-- C12 amended, at velocity `(3, 4, 0)`, damping `1/2`, inverseMass `1` and the
durations `1` and `2`: two calls and the single call over `1 + 2` leave the
same velocity. -/
theorem integrate_damping_step_size_independent_witness :
    (1 : ℝ) > 0 ∧ (1 / 2 : ℝ) > 0 ∧ (1 : ℝ) > 0 ∧ (2 : ℝ) > 0 ∧
    ∃ p1 p2 p12,
      integrate (fun a b : ℝ => a ^ b) id
        ⟨⟨0, 0, 0⟩, ⟨3, 4, 0⟩, Vector3.zero, 1 / 2, 1⟩ 1 = Outcome.returned p1 ∧
      integrate (fun a b : ℝ => a ^ b) id p1 2 = Outcome.returned p2 ∧
      integrate (fun a b : ℝ => a ^ b) id
        ⟨⟨0, 0, 0⟩, ⟨3, 4, 0⟩, Vector3.zero, 1 / 2, 1⟩ (1 + 2) = Outcome.returned p12 ∧
      p2.velocity = p12.velocity :=
  ⟨by norm_num, by norm_num, by norm_num, by norm_num,
    integrate_damping_step_size_independent id (fun _ => ⟨rfl, rfl, rfl, fun h => h⟩)
      ⟨⟨0, 0, 0⟩, ⟨3, 4, 0⟩, Vector3.zero, 1 / 2, 1⟩ 1 2
      (by norm_num) (by norm_num) rfl (by norm_num) (by norm_num)⟩

/-- C19: `integrate` writes neither inverseMass nor damping.  It returns
normally whenever `inverseMass <= 0` or `duration > 0`, and whenever it
returns normally inverseMass and damping are the values before the call, so
`inverseMass >= 0` before the call gives `inverseMass >= 0` after it.
`clearAccumulator`, which has no body in the sources, is any function that
keeps damping and inverseMass. -/
theorem integrate_keeps_inverseMass_damping (real_pow : α → α → α)
    (clearAccumulator : Particle α → Particle α)
    (hclear : ∀ q, (clearAccumulator q).damping = q.damping ∧
      (clearAccumulator q).inverseMass = q.inverseMass)
    (p : Particle α) (duration : α) :
    (p.inverseMass ≤ 0 ∨ duration > 0 →
      ∃ p', integrate real_pow clearAccumulator p duration = Outcome.returned p') ∧
    (∀ p', integrate real_pow clearAccumulator p duration = Outcome.returned p' →
      p'.inverseMass = p.inverseMass ∧ p'.damping = p.damping ∧
      (p.inverseMass ≥ 0 → p'.inverseMass ≥ 0)) := by
  by_cases hm : p.inverseMass ≤ 0
  · have h : integrate real_pow clearAccumulator p duration = Outcome.returned p := by
      simp only [integrate, hm, if_true]
    refine ⟨fun _ => ⟨p, h⟩, ?_⟩
    intro p' hp'
    rw [h] at hp'
    cases hp'
    exact ⟨rfl, rfl, fun hge => hge⟩
  · have hm' : p.inverseMass > 0 := not_le.mp hm
    by_cases hd : duration > 0
    · have h := integrate_main_path real_pow clearAccumulator p duration hm' hd
      refine ⟨fun _ => ⟨_, h⟩, ?_⟩
      intro p' hp'
      rw [h] at hp'
      cases hp'
      refine ⟨(hclear _).2, (hclear _).1, ?_⟩
      intro hge
      rw [(hclear _).2]
      exact hge
    · have h : integrate real_pow clearAccumulator p duration = Outcome.assertFailed p := by
        simp only [integrate, hm, hd, if_false, not_false_eq_true, if_true]
      constructor
      · intro hor
        cases hor with
        | inl h1 => exact absurd h1 hm
        | inr h2 => exact absurd h2 hd
      · intro p' hp'
        rw [h] at hp'
        cases hp'

/-- C19 at a particle of inverseMass `1` and damping `1/2` with the duration
`1` over exact reals: the call returns, and both members are as before. -/
theorem integrate_keeps_inverseMass_damping_witness :
    ((1 : ℝ) ≤ 0 ∨ (1 : ℝ) > 0) ∧
    ∃ p', integrate (fun a b : ℝ => a ^ b) id
        ⟨⟨1, 2, 3⟩, ⟨4, 5, 6⟩, ⟨0, -10, 0⟩, 1 / 2, 1⟩ 1 = Outcome.returned p' ∧
      p'.inverseMass = 1 ∧ p'.damping = 1 / 2 ∧ p'.inverseMass ≥ 0 := by
  have hor : (1 : ℝ) ≤ 0 ∨ (1 : ℝ) > 0 := Or.inr (by norm_num)
  have hthm := integrate_keeps_inverseMass_damping (fun a b : ℝ => a ^ b) id
    (fun _ => ⟨rfl, rfl⟩) ⟨⟨1, 2, 3⟩, ⟨4, 5, 6⟩, ⟨0, -10, 0⟩, 1 / 2, 1⟩ 1
  obtain ⟨p', hp'⟩ := hthm.1 hor
  obtain ⟨h1, h2, h3⟩ := hthm.2 p' hp'
  exact ⟨hor, p', hp', h1, h2, h3 (by norm_num)⟩

end Particle

/-! ## Vector3: scalar product, vector product, orthonormal basis -/

namespace Vector3

variable {α : Type} [LinearOrderedField α]

/-- C6: for all vectors `a` and `b`, the vector product `a x b` is orthogonal
to both operands: its scalar product with `a` is `0` and its scalar product
with `b` is `0`. -/
theorem vectorProduct_orthogonal (a b : Vector3 α) :
    scalarProduct (vectorProduct a b) a = 0 ∧
    scalarProduct (vectorProduct a b) b = 0 := by
  constructor
  · simp only [scalarProduct, vectorProduct]
    ring
  · simp only [scalarProduct, vectorProduct]
    ring

/-- C7: for all vectors `a` and `b`, each component of `a x b` is the negation
of the same component of `b x a`, and `a x b = (b x a) * (-1)`, for
`vectorProduct` and for `operator%`. -/
theorem vectorProduct_anticommutative (a b : Vector3 α) :
    (vectorProduct a b).x = -(vectorProduct b a).x ∧
    (vectorProduct a b).y = -(vectorProduct b a).y ∧
    (vectorProduct a b).z = -(vectorProduct b a).z ∧
    vectorProduct a b = opMulScalar (vectorProduct b a) (-1) ∧
    opMod a b = opMulScalar (opMod b a) (-1) := by
  refine ⟨?_, ?_, ?_, ?_, ?_⟩
  · simp only [vectorProduct]
    ring
  · simp only [vectorProduct]
    ring
  · simp only [vectorProduct]
    ring
  · apply eq_of_components <;> simp only [vectorProduct, opMulScalar] <;> ring
  · apply eq_of_components <;> simp only [opMod, opMulScalar] <;> ring

/-- C8: for all vectors `a` and `b`, `a.scalarProduct(b) = b.scalarProduct(a)`,
and the same for `operator*` on two vectors. -/
theorem scalarProduct_commutative (a b : Vector3 α) :
    scalarProduct a b = scalarProduct b a ∧ opMulVector a b = opMulVector b a := by
  constructor
  · simp only [scalarProduct]
    ring
  · simp only [opMulVector]
    ring

/-- C9: for every pair of vectors, `scalarProduct` is
`ax*bx + ay*by + az*bz` and `vectorProduct` is
`(ay*bz - az*by, az*bx - ax*bz, ax*by - ay*bx)`; for `a = (1,2,3)` and
`b = (4,5,6)` the scalar product is `32` and the vector product is
`(-3, 6, -3)`. -/
theorem scalarProduct_vectorProduct_formulas :
    (∀ a b : Vector3 α,
      scalarProduct a b = a.x * b.x + a.y * b.y + a.z * b.z ∧
      vectorProduct a b =
        ⟨a.y * b.z - a.z * b.y, a.z * b.x - a.x * b.z, a.x * b.y - a.y * b.x⟩) ∧
    scalarProduct (⟨1, 2, 3⟩ : Vector3 α) ⟨4, 5, 6⟩ = 32 ∧
    vectorProduct (⟨1, 2, 3⟩ : Vector3 α) ⟨4, 5, 6⟩ = ⟨-3, 6, -3⟩ := by
  refine ⟨fun a b => ⟨rfl, rfl⟩, ?_, ?_⟩
  · simp only [scalarProduct]
    norm_num
  · apply eq_of_components <;> simp only [vectorProduct] <;> norm_num

/-- C10 (the code departs from it): over exact reals `a = (2,0,0)` and
`b = (0,1,0)` are not parallel, and `makeOrthonormalBasis` leaves
`a = (2,0,0)`, `b = (0,4,0)`, `c = (0,0,2)`: `a` and `c` have magnitude `2`,
not `1`, and `a x b = (0,0,8)` is not `c`. -/
theorem makeOrthonormalBasis_example_not_orthonormal :
    vectorProduct (⟨2, 0, 0⟩ : Vector3 ℝ) ⟨0, 1, 0⟩ ≠ zero ∧
    makeOrthonormalBasis Real.sqrt (⟨2, 0, 0⟩ : Vector3 ℝ) ⟨0, 1, 0⟩ zero =
      (⟨2, 0, 0⟩, ⟨0, 4, 0⟩, ⟨0, 0, 2⟩) ∧
    magnitude Real.sqrt (⟨2, 0, 0⟩ : Vector3 ℝ) = 2 ∧
    magnitude Real.sqrt (⟨0, 0, 2⟩ : Vector3 ℝ) = 2 ∧
    vectorProduct (⟨2, 0, 0⟩ : Vector3 ℝ) ⟨0, 4, 0⟩ = ⟨0, 0, 8⟩ ∧
    vectorProduct (⟨2, 0, 0⟩ : Vector3 ℝ) ⟨0, 4, 0⟩ ≠ ⟨0, 0, 2⟩ := by
  have hax : (2 * 2 + 0 * 0 + 0 * 0 : ℝ) = 4 := by norm_num
  have hcz : (0 * 0 + 0 * 0 + 2 * 2 : ℝ) = 4 := by norm_num
  refine ⟨?_, ?_, ?_, ?_, ?_, ?_⟩
  · intro h
    have hz := congrArg Vector3.z h
    norm_num [vectorProduct, zero] at hz
  · simp only [makeOrthonormalBasis, normalize_eq_self]
    norm_num [opMod, squareMagnitude]
  · simp only [magnitude, hax, sqrt_four]
  · simp only [magnitude, hcz, sqrt_four]
  · apply eq_of_components <;> simp only [vectorProduct] <;> norm_num
  · intro h
    have hz := congrArg Vector3.z h
    norm_num [vectorProduct] at hz

/-- C13: over exact reals, for every vector the square of `magnitude` is
`squareMagnitude`, and `magnitude` is not negative. -/
theorem magnitude_sq_eq_squareMagnitude (v : Vector3 ℝ) :
    magnitude Real.sqrt v ^ 2 = squareMagnitude v ∧
    magnitude Real.sqrt v * magnitude Real.sqrt v = squareMagnitude v ∧
    0 ≤ magnitude Real.sqrt v := by
  have h := squareMagnitude_nonneg v
  refine ⟨?_, ?_, Real.sqrt_nonneg _⟩
  · exact Real.sq_sqrt h
  · exact Real.mul_self_sqrt h

/-- C14: for all vectors `self`, `v` and every scalar `s`,
`self.addScaledVector(v, s)` leaves `self + (v * s)`, with `operator+` and the
value-returning `operator*`; it is also what `self += v * s` leaves. -/
theorem addScaledVector_eq_opAdd_opMulScalar (self v : Vector3 α) (s : α) :
    addScaledVector self v s = opAdd self (opMulScalar v s) ∧
    addScaledVector self v s = opAddAssign self (opMulScalar v s) :=
  ⟨rfl, rfl⟩

/-- C15: over exact reals the zero vector has magnitude `0`, `normalize`
leaves it the zero vector, and the checked `normalize` reaches no division by
zero on it. -/
theorem normalize_zero :
    magnitude Real.sqrt (zero : Vector3 ℝ) = 0 ∧
    normalize Real.sqrt (zero : Vector3 ℝ) = zero ∧
    normalizeChecked Real.sqrt (zero : Vector3 ℝ) = some zero := by
  have hm : magnitude Real.sqrt (zero : Vector3 ℝ) = 0 := by
    simp [magnitude, zero]
  have hn : normalize Real.sqrt (zero : Vector3 ℝ) = zero := by
    simp only [normalize, hm, gt_iff_lt, lt_self_iff_false, if_false]
  refine ⟨hm, hn, ?_⟩
  rw [normalizeChecked_eq_some, hn]

/-- C17 as stated fails: `a = (1,0,0)` and `b = (2,0,0)` are parallel, and the
call returns normally, as it does for vectors that are not parallel; no
error is reported. -/
theorem makeOrthonormalBasis_parallel_returns :
    vectorProduct (⟨1, 0, 0⟩ : Vector3 ℝ) ⟨2, 0, 0⟩ = zero ∧
    makeOrthonormalBasisOutcome Real.sqrt (⟨1, 0, 0⟩ : Vector3 ℝ) ⟨2, 0, 0⟩ ⟨7, 8, 9⟩ =
      Outcome.returned (⟨1, 0, 0⟩, ⟨2, 0, 0⟩, ⟨0, 0, 0⟩) ∧
    ∀ s, makeOrthonormalBasisOutcome Real.sqrt (⟨1, 0, 0⟩ : Vector3 ℝ) ⟨2, 0, 0⟩ ⟨7, 8, 9⟩ ≠
      Outcome.assertFailed s := by
  have hp : vectorProduct (⟨1, 0, 0⟩ : Vector3 ℝ) ⟨2, 0, 0⟩ = zero := by
    apply eq_of_components <;> simp [vectorProduct, zero]
  have h : makeOrthonormalBasisOutcome Real.sqrt (⟨1, 0, 0⟩ : Vector3 ℝ) ⟨2, 0, 0⟩ ⟨7, 8, 9⟩ =
      Outcome.returned (⟨1, 0, 0⟩, ⟨2, 0, 0⟩, ⟨0, 0, 0⟩) := by
    rw [makeOrthonormalBasisOutcome_eq, makeOrthonormalBasis_of_parallel _ _ _ _ hp]
    rfl
  refine ⟨hp, h, ?_⟩
  intro s hs
  rw [h] at hs
  cases hs

/-- C17 amended: when `a x b` is the zero vector the call of
`makeOrthonormalBasis` returns normally, with `a` as `normalize` leaves it,
`b` unchanged and `c` the zero vector. -/
theorem makeOrthonormalBasis_parallel_silent_return (real_sqrt : α → α)
    (a b c : Vector3 α) (h : vectorProduct a b = zero) :
    makeOrthonormalBasisOutcome real_sqrt a b c =
      Outcome.returned (normalize real_sqrt a, b, zero) := by
  rw [makeOrthonormalBasisOutcome_eq, makeOrthonormalBasis_of_parallel _ _ _ _ h,
    normalize_eq_self]

/-- C17 amended, at `a = (1,2,3)` and `b = (2,4,6)` over exact reals. -/
theorem makeOrthonormalBasis_parallel_silent_return_witness :
    vectorProduct (⟨1, 2, 3⟩ : Vector3 ℝ) ⟨2, 4, 6⟩ = zero ∧
    makeOrthonormalBasisOutcome Real.sqrt (⟨1, 2, 3⟩ : Vector3 ℝ) ⟨2, 4, 6⟩ ⟨7, 8, 9⟩ =
      Outcome.returned (normalize Real.sqrt (⟨1, 2, 3⟩ : Vector3 ℝ), ⟨2, 4, 6⟩, zero) :=
  have hp : vectorProduct (⟨1, 2, 3⟩ : Vector3 ℝ) ⟨2, 4, 6⟩ = zero := by
    apply eq_of_components <;> norm_num [vectorProduct, zero]
  ⟨hp, makeOrthonormalBasis_parallel_silent_return Real.sqrt
    ⟨1, 2, 3⟩ ⟨2, 4, 6⟩ ⟨7, 8, 9⟩ hp⟩

/-- C18: for all vectors `a` and `b`, `a * b` is `a.scalarProduct(b)`, `a % b`
is `a.vectorProduct(b)`, and `a %= b` leaves the former `a.vectorProduct(b)`
in `a`. -/
theorem operators_eq_named_methods (a b : Vector3 α) :
    opMulVector a b = scalarProduct a b ∧
    opMod a b = vectorProduct a b ∧
    opModAssign a b = vectorProduct a b :=
  ⟨rfl, rfl, rfl⟩

/-- C20: when `a x b` is not the zero vector, the three vectors
`makeOrthonormalBasis` leaves have the scalar products `a.b = 0`, `a.c = 0`
and `b.c = 0`; when `a x b` is the zero vector it leaves `b` unchanged and
`c` the zero vector. -/
theorem makeOrthonormalBasis_orthogonal (real_sqrt : α → α) (a b c : Vector3 α) :
    (vectorProduct a b ≠ zero →
      scalarProduct (makeOrthonormalBasis real_sqrt a b c).1
        (makeOrthonormalBasis real_sqrt a b c).2.1 = 0 ∧
      scalarProduct (makeOrthonormalBasis real_sqrt a b c).1
        (makeOrthonormalBasis real_sqrt a b c).2.2 = 0 ∧
      scalarProduct (makeOrthonormalBasis real_sqrt a b c).2.1
        (makeOrthonormalBasis real_sqrt a b c).2.2 = 0) ∧
    (vectorProduct a b = zero →
      (makeOrthonormalBasis real_sqrt a b c).2.1 = b ∧
      (makeOrthonormalBasis real_sqrt a b c).2.2 = zero) := by
  constructor
  · intro h
    rw [makeOrthonormalBasis_of_not_parallel real_sqrt a b c h]
    refine ⟨?_, ?_, ?_⟩
    · simp only [scalarProduct, vectorProduct]
      ring
    · simp only [scalarProduct, vectorProduct]
      ring
    · simp only [scalarProduct, vectorProduct]
      ring
  · intro h
    rw [makeOrthonormalBasis_of_parallel real_sqrt a b c h]
    exact ⟨rfl, rfl⟩

/-- C20 over exact reals at `a = (2,0,0)`, `b = (0,1,0)`, which are not
parallel, and at `a = (1,0,0)`, `b = (2,0,0)`, which are. -/
theorem makeOrthonormalBasis_orthogonal_witness :
    (vectorProduct (⟨2, 0, 0⟩ : Vector3 ℝ) ⟨0, 1, 0⟩ ≠ zero ∧
      scalarProduct (makeOrthonormalBasis Real.sqrt (⟨2, 0, 0⟩ : Vector3 ℝ) ⟨0, 1, 0⟩ zero).1
        (makeOrthonormalBasis Real.sqrt (⟨2, 0, 0⟩ : Vector3 ℝ) ⟨0, 1, 0⟩ zero).2.1 = 0 ∧
      scalarProduct (makeOrthonormalBasis Real.sqrt (⟨2, 0, 0⟩ : Vector3 ℝ) ⟨0, 1, 0⟩ zero).1
        (makeOrthonormalBasis Real.sqrt (⟨2, 0, 0⟩ : Vector3 ℝ) ⟨0, 1, 0⟩ zero).2.2 = 0 ∧
      scalarProduct (makeOrthonormalBasis Real.sqrt (⟨2, 0, 0⟩ : Vector3 ℝ) ⟨0, 1, 0⟩ zero).2.1
        (makeOrthonormalBasis Real.sqrt (⟨2, 0, 0⟩ : Vector3 ℝ) ⟨0, 1, 0⟩ zero).2.2 = 0) ∧
    (vectorProduct (⟨1, 0, 0⟩ : Vector3 ℝ) ⟨2, 0, 0⟩ = zero ∧
      (makeOrthonormalBasis Real.sqrt (⟨1, 0, 0⟩ : Vector3 ℝ) ⟨2, 0, 0⟩ ⟨7, 8, 9⟩).2.1 =
        ⟨2, 0, 0⟩ ∧
      (makeOrthonormalBasis Real.sqrt (⟨1, 0, 0⟩ : Vector3 ℝ) ⟨2, 0, 0⟩ ⟨7, 8, 9⟩).2.2 =
        zero) := by
  have hnp : vectorProduct (⟨2, 0, 0⟩ : Vector3 ℝ) ⟨0, 1, 0⟩ ≠ zero := by
    intro h
    have hz := congrArg Vector3.z h
    norm_num [vectorProduct, zero] at hz
  have hp : vectorProduct (⟨1, 0, 0⟩ : Vector3 ℝ) ⟨2, 0, 0⟩ = zero := by
    apply eq_of_components <;> simp [vectorProduct, zero]
  exact ⟨⟨hnp, (makeOrthonormalBasis_orthogonal Real.sqrt ⟨2, 0, 0⟩ ⟨0, 1, 0⟩ zero).1 hnp⟩,
    ⟨hp, (makeOrthonormalBasis_orthogonal Real.sqrt ⟨1, 0, 0⟩ ⟨2, 0, 0⟩ ⟨7, 8, 9⟩).2 hp⟩⟩

end Vector3

end cyclone
